import Mathlib

/-!
Verification of the IAM Policy Reconciliation Engine of abcxyz/access-on-demand
(`pkg/handler/iam_handler.go`), as a shallow embedding in Lean 4.

Instants are modelled as `Int` seconds since the Unix epoch.  The RFC 3339
codec mirrors Go's `time.Format(time.RFC3339)` / `time.Parse(time.RFC3339)`
for times in the four-digit-year range, using the standard civil-calendar
conversion.
-/

namespace AOD

/-- The single-quote character, used by the expiration expression template. -/
def squote : Char := Char.ofNat 39

/-- `isLeap y`: Gregorian leap-year test. -/
def isLeap (y : Nat) : Bool := y % 4 == 0 && (y % 100 != 0 || y % 400 == 0)

/-- Number of days in month `m` (1-12) of year `y`. -/
def daysInMonth (y m : Nat) : Nat :=
  if m == 2 then (if isLeap y then 29 else 28)
  else if m == 4 || m == 6 || m == 9 || m == 11 then 30
  else 31

/-- Days since 1970-01-01 of the civil date `y-m-d` (valid for years 0-9999).
Standard era-based civil-calendar conversion; computed in `Nat` by shifting
the year by 400 (one full leap cycle, 146097 days). -/
def daysFromCivil (y m d : Nat) : Int :=
  let yN := y + 400
  let y' := if m ≤ 2 then yN - 1 else yN
  let era := y' / 400
  let yoe := y' - era * 400
  let mp := if m > 2 then m - 3 else m + 9
  let doy := (153 * mp + 2) / 5 + d - 1
  let doe := yoe * 365 + yoe / 4 - yoe / 100 + doy
  (era * 146097 + doe : Int) - 719468 - 146097

/-- Civil date `(y, m, d)` of the day `z` days after 1970-01-01
(valid for the years 0-9999; inverse of `daysFromCivil`). -/
def civilFromDays (z : Int) : Nat × Nat × Nat :=
  let zN := (z + 719468 + 146097).toNat
  let era := zN / 146097
  let doe := zN % 146097
  let yoe := (doe - doe / 1460 + doe / 36524 - doe / 146096) / 365
  let y := yoe + era * 400
  let doy := doe - (365 * yoe + yoe / 4 - yoe / 100)
  let mp := (5 * doy + 2) / 153
  let d := doy - (153 * mp + 2) / 5 + 1
  let m := if mp < 10 then mp + 3 else mp - 9
  let y' := if m ≤ 2 then y + 1 else y
  (y' - 400, m, d)

/-- Left-pad the decimal representation of `n` with zeros to width `w`. -/
def padNat (w n : Nat) : String :=
  let s := toString n
  String.mk (List.replicate (w - s.length) '0') ++ s

/-- Embedding of Go `expiry.Format(time.RFC3339)` for a UTC instant `t`
(seconds since the Unix epoch): `YYYY-MM-DDTHH:MM:SSZ`. -/
def formatRFC3339 (t : Int) : String :=
  let days := Int.fdiv t 86400
  let sod := (Int.fmod t 86400).toNat
  let ymd := civilFromDays days
  padNat 4 ymd.1 ++ "-" ++ padNat 2 ymd.2.1 ++ "-" ++ padNat 2 ymd.2.2 ++ "T" ++
    padNat 2 (sod / 3600) ++ ":" ++ padNat 2 (sod % 3600 / 60) ++ ":" ++
    padNat 2 (sod % 60) ++ "Z"

/-- Numeric value of a decimal digit character, `none` if not a digit. -/
def digitVal (c : Char) : Option Nat :=
  if '0' ≤ c ∧ c ≤ '9' then some (c.toNat - 48) else none

/-- Two-digit decimal number from two characters. -/
def twoDigits (a b : Char) : Option Nat := do
  let x ← digitVal a
  let y ← digitVal b
  pure (x * 10 + y)

/-- Consume an optional fractional-second part `.d+` (value discarded, as the
engine compares at second granularity), returning the rest of the input. -/
def dropFraction : List Char → Option (List Char)
  | '.' :: c :: rest =>
    if (digitVal c).isSome then
      some (rest.dropWhile (fun d => (digitVal d).isSome))
    else none
  | rest => some rest

/-- Parse the RFC 3339 numeric offset suffix: `Z`, or `+HH:MM` / `-HH:MM`;
returns the offset east of UTC in seconds.  Must consume all input. -/
def parseOffset : List Char → Option Int
  | ['Z'] => some 0
  | [sgn, h1, h2, ':', m1, m2] => do
    let hh ← twoDigits h1 h2
    let mm ← twoDigits m1 m2
    if hh ≤ 23 ∧ mm ≤ 59 then
      let secs : Int := hh * 3600 + mm * 60
      if sgn = '+' then some secs
      else if sgn = '-' then some (-secs)
      else none
    else none
  | _ => none

/-- Embedding of Go `time.Parse(time.RFC3339, s)`: parse
`YYYY-MM-DDTHH:MM:SS[.d+](Z|±HH:MM)` with field validation, returning the
instant as seconds since the Unix epoch. -/
def parseRFC3339 (s : String) : Option Int :=
  match s.data with
  | y1 :: y2 :: y3 :: y4 :: '-' :: mo1 :: mo2 :: '-' :: d1 :: d2 :: 'T' ::
      h1 :: h2 :: ':' :: mi1 :: mi2 :: ':' :: s1 :: s2 :: rest => do
    let ya ← digitVal y1
    let yb ← digitVal y2
    let yc ← digitVal y3
    let yd ← digitVal y4
    let y := ((ya * 10 + yb) * 10 + yc) * 10 + yd
    let mo ← twoDigits mo1 mo2
    let d ← twoDigits d1 d2
    let h ← twoDigits h1 h2
    let mi ← twoDigits mi1 mi2
    let sec ← twoDigits s1 s2
    if 1 ≤ mo ∧ mo ≤ 12 ∧ 1 ≤ d ∧ d ≤ daysInMonth y mo ∧
        h ≤ 23 ∧ mi ≤ 59 ∧ sec ≤ 59 then
      let rest' ← dropFraction rest
      let off ← parseOffset rest'
      pure (daysFromCivil y mo d * 86400 + (h * 3600 + mi * 60 + sec : Nat) - off)
    else none
  | _ => none

/-! ## Expiration expression codec (`expirationExpression` / `expirationRegex`) -/

/-- `defaultConditionTitle` of IAM bindings added by AOD. -/
def defaultConditionTitle : String := "abcxyz-aod-expiry"

/-- Go `fmt.Sprintf(expirationExpression, t)` with
`expirationExpression = "request.time < timestamp('%s')"`. -/
def expirationExpressionWith (t : String) : String :=
  "request.time < timestamp(" ++ squote.toString ++ t ++ squote.toString ++ ")"

/-- The pattern of `expirationRegex` up to the capture group, as literal
characters with `none` for the unescaped `.` metacharacter of the regex
`request.time < timestamp\('([^']+)'\)`. -/
def regexHead : List (Option Char) :=
  ("request".data.map some) ++ [none] ++ ("time < timestamp(".data.map some) ++
    [some squote]

/-- Match a list of literal-or-wildcard characters at the head of the input,
returning the rest. -/
def matchHead : List (Option Char) → List Char → Option (List Char)
  | [], cs => some cs
  | _, [] => none
  | p :: ps, c :: cs =>
    match p with
    | none => matchHead ps cs
    | some l => if c = l then matchHead ps cs else none

/-- Try to match `expirationRegex` at the start of the input and return the
capture group: the maximal nonempty run of non-quote characters after the
pattern head, which must be followed by `')`. -/
def matchExpirationAt (cs : List Char) : Option String :=
  match matchHead regexHead cs with
  | none => none
  | some rest =>
    let ts := rest.takeWhile (fun c => c ≠ squote)
    match rest.drop ts.length with
    | q :: r :: _ => if ts ≠ [] ∧ q = squote ∧ r = ')' then some (String.mk ts) else none
    | _ => none

/-- Go `expirationRegex.FindStringSubmatch`: leftmost match of the pattern
anywhere in the string, returning the capture group. -/
def findExpiration : List Char → Option String
  | [] => none
  | c :: cs =>
    match matchExpirationAt (c :: cs) with
    | some ts => some ts
    | none => findExpiration cs

/-- The decoded expiry of a condition expression: the timestamp captured by
`expirationRegex`, parsed as RFC 3339.  `none` models the error cases of
Go `expired`. -/
def decodeExpiry (exp : String) : Option Int :=
  match findExpiration exp.data with
  | none => none
  | some ts => parseRFC3339 ts

/-- Embedding of Go `expired(exp)`: first component is the returned boolean
(`false` on any decode failure, since Go returns the zero value with the
error), second is the error, carried as the offending expression. -/
def expired (now : Int) (exp : String) : Bool × Option String :=
  match decodeExpiry exp with
  | none => (false, some exp)
  | some t => (decide (t < now), none)

/-! ## Data model (`iampb.Policy`, `expr.Expr`, `v1alpha1` request types) -/

/-- `expr.Expr` restricted to the fields the handler uses. -/
structure Condition where
  title : String
  expression : String
  deriving DecidableEq, Repr

/-- `iampb.Binding`. -/
structure Binding where
  members : List String
  role : String
  condition : Option Condition
  deriving DecidableEq, Repr

/-- `iampb.Policy` restricted to the fields the handler uses. -/
structure Policy where
  bindings : List Binding
  version : Int
  deriving DecidableEq, Repr

/-- `v1alpha1.Binding`: a requested members-to-role binding. -/
structure BindingReq where
  members : List String
  role : String
  deriving DecidableEq, Repr

/-- `v1alpha1.ResourcePolicy`. -/
structure ResourcePolicy where
  resource : String
  bindings : List BindingReq
  deriving DecidableEq, Repr

/-- A binding is managed by AOD iff it has a condition whose title is the
handler's condition title. -/
def isManaged (tag : String) (b : Binding) : Bool :=
  match b.condition with
  | none => false
  | some c => c.title == tag

/-! ## `toBindingsMap`: role → unique member set, as an association list -/

/-- Add a member to a member set (Go `map[string]struct{}` insertion). -/
def insertMember (ms : List String) (m : String) : List String :=
  if m ∈ ms then ms else ms ++ [m]

/-- Look up a role in the bindings map. -/
def mapLookup : List (String × List String) → String → Option (List String)
  | [], _ => none
  | e :: es, r => if e.1 = r then some e.2 else mapLookup es r

/-- Ensure the map has an entry for role `r` (Go
`if result[b.Role] == nil { result[b.Role] = make(...) }`). -/
def ensureRole (acc : List (String × List String)) (r : String) :
    List (String × List String) :=
  match mapLookup acc r with
  | some _ => acc
  | none => acc ++ [(r, [])]

/-- Insert member `m` into role `r`'s member set. -/
def mapInsert : List (String × List String) → String → String →
    List (String × List String)
  | [], r, m => [(r, [m])]
  | e :: es, r, m =>
    if e.1 = r then (e.1, insertMember e.2 m) :: es else e :: mapInsert es r m

/-- Embedding of Go `toBindingsMap`: requested bindings to a role → unique
member set map (association list in first-insertion order). -/
def toBindingsMap (bs : List BindingReq) : List (String × List String) :=
  bs.foldl (fun acc b => b.members.foldl (fun a m => mapInsert a b.role m)
    (ensureRole acc b.role)) []

/-! ## `cleanupBindings` and `addBindings` -/

/-- One iteration of the `cleanupBindings` loop for binding `b`: the kept
binding (if any) and the recorded decode error (if any). -/
def keepBinding (tag : String) (now : Int) (bsMap : List (String × List String))
    (b : Binding) : Option Binding × Option String :=
  match b.condition with
  | none => (some b, none)
  | some c =>
    if c.title ≠ tag then (some b, none)
    else
      let ex := expired now c.expression
      if ex.1 then (none, ex.2)
      else
        match mapLookup bsMap b.role with
        | none => (some b, ex.2)
        | some ms =>
          let nm := b.members.filter (fun m => ¬ m ∈ ms)
          if nm.isEmpty then (none, ex.2)
          else (some { b with members := nm }, ex.2)

/-- Embedding of Go `cleanupBindings`: removes requested bindings and any
expired AOD bindings from the policy; returns the new policy and the list of
joined decode errors (each carried as the offending expression). -/
def cleanupBindings (tag : String) (now : Int) (p : Policy)
    (bs : List BindingReq) : Policy × List String :=
  let bsMap := toBindingsMap bs
  let processed := p.bindings.map (keepBinding tag now bsMap)
  ({ bindings := processed.filterMap Prod.fst, version := p.version },
    processed.filterMap Prod.snd)

/-- Lexicographic comparison of strings by code point, the order of Go
`sort.Strings` (byte order and code-point order agree on UTF-8). -/
def strLe (a b : String) : Bool :=
  let rec go : List Char → List Char → Bool
    | [], _ => true
    | _ :: _, [] => false
    | c :: cs, d :: ds =>
      if c.toNat < d.toNat then true
      else if d.toNat < c.toNat then false
      else go cs ds
  go a.data b.data

/-- Insert into a sorted list (insertion sort step). -/
def insertSorted (m : String) : List String → List String
  | [] => [m]
  | x :: xs => if strLe m x then m :: x :: xs else x :: insertSorted m xs

/-- Embedding of Go `sort.Strings`. -/
def sortStrings (ms : List String) : List String :=
  ms.foldr insertSorted []

/-- `encodeExpiry expiry` is the condition expression `addBindings` attaches:
the expiration template instantiated with the RFC 3339 rendering of the
expiry. -/
def encodeExpiry (expiry : Int) : String :=
  expirationExpressionWith (formatRFC3339 expiry)

/-- The new binding `addBindings` constructs for role `r` with requested
member set `ms`. -/
def newBindingFor (tag : String) (expiry : Int) (r : String) (ms : List String) :
    Binding :=
  { members := sortStrings ms, role := r,
    condition := some { title := tag, expression := encodeExpiry expiry } }

/-- Embedding of Go `addBindings`: cleanup, then append one new conditional
binding per requested role and set the policy version to 3.  The returned
list of strings is what `addBindings` logs as warnings; its Go return value
is always `nil`. -/
def addBindings (tag : String) (now : Int) (expiry : Int) (p : Policy)
    (bs : List BindingReq) : Policy × List String :=
  let cl := cleanupBindings tag now p bs
  let bsMap := toBindingsMap bs
  ({ bindings := cl.1.bindings ++ bsMap.map (fun rm => newBindingFor tag expiry rm.1 rm.2),
     version := 3 }, cl.2)

/-! ## Retry controller and orchestrator (`handlePolicy`, `Do`, `Cleanup`)

The `go-retry` dependency (`retry.Do`, `retry.WithMaxRetries`,
`retry.NewFibonacci`) is not part of this repository's sources; the retry
loop is modelled from the spec: a bounded number of attempts (default 5)
with Fibonacci backoff starting at 500ms, each attempt running the whole
fetch-reconcile-write unit, and every error the handler wraps as retryable
triggering the next attempt. -/

/-- Result of a policy store call. -/
inductive StoreResult where
  | ok (p : Policy)
  | err (e : String)
  deriving DecidableEq, Repr

/-- `IAMClient`: get/set IAM policy for a resource, as an oracle indexed by
the attempt number (the n-th call made by the retry loop). -/
structure IAMClient where
  getIamPolicy : String → Nat → StoreResult
  setIamPolicy : String → Nat → Policy → StoreResult

/-- `IAMHandler` configuration.  `maxAttempts` models the default retry
budget (spec: 5 attempts). -/
structure IAMHandler where
  organizationsClient : IAMClient
  foldersClient : IAMClient
  projectsClient : IAMClient
  maxAttempts : Nat
  conditionTitle : String

/-- Modelled from the spec: the default backoff delays in milliseconds grow
along a Fibonacci sequence starting at 500ms (`retry.NewFibonacci(500ms)`,
whose source is not in this repository). -/
def fibBackoffMs : Nat → Nat
  | 0 => 500
  | 1 => 500
  | n + 2 => fibBackoffMs n + fibBackoffMs (n + 1)

/-- Modelled from the spec: the default retry budget of
`retry.WithMaxRetries(5, ...)`, read as 5 attempts. -/
def defaultMaxAttempts : Nat := 5

/-- Which pass is running: `Do` reconciles with `addBindings` (carrying the
expiry), `Cleanup` with `cleanupBindings`. -/
inductive Pass where
  | add (expiry : Int)
  | cleanup
  deriving DecidableEq, Repr

/-- The `updateFunc` of a pass: new policy plus the error the update function
returns to `handlePolicy` (`addBindings` always returns nil in Go — its
decode errors are only logged). -/
def reconcile (tag : String) (now : Int) (pass : Pass) (bs : List BindingReq)
    (p : Policy) : Policy × List String :=
  match pass with
  | .add expiry => ((addBindings tag now expiry p bs).1, [])
  | .cleanup => cleanupBindings tag now p bs

/-- Outcome of `handlePolicy` for one resource: invalid scope (no store
call), store failure after `attempts` attempts (with the update errors of the
last reconcile that produced any, and the last store error), or success,
recording the attempts used, the policy sent to the store, the policy the
store returned, and the update errors. -/
inductive HandleOutcome where
  | invalidScope
  | storeFailure (attempts : Nat) (updateErrs : List String) (lastErr : String)
  | success (attempts : Nat) (written : Policy) (response : Policy)
      (updateErrs : List String)
  deriving DecidableEq, Repr

/-- The client selected by the first path segment of the resource
(`strings.Split(p.Resource, "/")[0]`). -/
def firstSegment (s : String) : String :=
  String.mk (s.data.takeWhile (fun c => c ≠ '/'))

/-- Client dispatch of `handlePolicy`; `none` is the invalid-scope case. -/
def clientFor (h : IAMHandler) (resource : String) : Option IAMClient :=
  if firstSegment resource = "organizations" then some h.organizationsClient
  else if firstSegment resource = "folders" then some h.foldersClient
  else if firstSegment resource = "projects" then some h.projectsClient
  else none

/-- Go keeps the previous `updateErr` unless the current attempt's update
returned a non-nil error. -/
def nextUerrs (new old : List String) : List String :=
  if new.isEmpty then old else new

/-- The retry loop of `handlePolicy`: on each attempt, fetch the policy
afresh, reconcile, and write; a get or set error is wrapped retryable and
consumes one attempt.  The `uerrs` accumulator carries the last non-empty
update errors across attempts (Go only overwrites `updateErr` when the
update returns a non-nil error). -/
def attemptLoop (c : IAMClient) (resource : String)
    (rec : Policy → Policy × List String) :
    Nat → Nat → List String → HandleOutcome
  | 0, used, uerrs => .storeFailure used uerrs "retry budget exhausted"
  | fuel + 1, used, uerrs =>
    match c.getIamPolicy resource used with
    | .err e =>
      if fuel = 0 then .storeFailure (used + 1) uerrs e
      else attemptLoop c resource rec fuel (used + 1) uerrs
    | .ok cp =>
      match c.setIamPolicy resource used (rec cp).1 with
      | .err e =>
        if fuel = 0 then .storeFailure (used + 1) (nextUerrs (rec cp).2 uerrs) e
        else attemptLoop c resource rec fuel (used + 1) (nextUerrs (rec cp).2 uerrs)
      | .ok np => .success (used + 1) (rec cp).1 np (nextUerrs (rec cp).2 uerrs)

/-- Embedding of Go `handlePolicy`: dispatch on the resource's first path
segment, then run the retried fetch-reconcile-write unit. -/
def handlePolicy (h : IAMHandler) (now : Int) (pass : Pass)
    (rp : ResourcePolicy) : HandleOutcome :=
  match clientFor h rp.resource with
  | none => .invalidScope
  | some c =>
    attemptLoop c rp.resource (reconcile h.conditionTitle now pass rp.bindings)
      h.maxAttempts 0 []

/-- `v1alpha1.IAMResponse`. -/
structure IAMResponse where
  resource : String
  policy : Policy
  deriving DecidableEq, Repr

/-- Attempts consumed by an outcome (0 for an invalid scope, which makes no
store call). -/
def attemptsUsed : HandleOutcome → Nat
  | .invalidScope => 0
  | .storeFailure n _ _ => n
  | .success n _ _ _ => n

/-- The response one scope contributes (Go appends `np` when non-nil): only a
successful write produces a response. -/
def scopeResponse (resource : String) : HandleOutcome → Option IAMResponse
  | .success _ _ np _ => some ⟨resource, np⟩
  | _ => none

/-- The error strings one scope contributes to the joined error, tagged with
the resource as Go's wrapping does. -/
def scopeErrors (resource : String) : HandleOutcome → List String
  | .invalidScope => ["resource " ++ resource ++ " is not one of organizations, folders, projects"]
  | .storeFailure _ uerrs e =>
    uerrs.map (fun u => resource ++ ": " ++ u) ++ [resource ++ ": failed to handle IAM request: " ++ e]
  | .success _ _ _ uerrs => uerrs.map (fun u => resource ++ ": " ++ u)

/-- The shared loop of Go `Do` and `Cleanup`: handle each resource policy in
turn, joining errors and collecting non-nil responses. -/
def runRequests (h : IAMHandler) (now : Int) (pass : Pass)
    (rps : List ResourcePolicy) : List IAMResponse × List String :=
  rps.foldl (fun acc rp =>
    let o := handlePolicy h now pass rp
    (acc.1 ++ (scopeResponse rp.resource o).toList,
      acc.2 ++ scopeErrors rp.resource o)) ([], [])

/-- Embedding of Go `Do` (the `Add` pass over all requested resources); the
expiry is `StartTime.Add(Duration)` computed by the caller. -/
def IAMHandlerDo (h : IAMHandler) (now expiry : Int) (rps : List ResourcePolicy) :
    List IAMResponse × List String :=
  runRequests h now (.add expiry) rps

/-- Embedding of Go `Cleanup` (the `Remove` pass over all requested
resources). -/
def IAMHandlerCleanup (h : IAMHandler) (now : Int) (rps : List ResourcePolicy) :
    List IAMResponse × List String :=
  runRequests h now .cleanup rps

/-! ## Helper lemmas -/

/-- `keepBinding` never changes a kept binding's role or condition (only its
member list may shrink). -/
theorem keepBinding_fst_role_cond (tag : String) (now : Int)
    (m : List (String × List String)) (b b' : Binding)
    (h : (keepBinding tag now m b).1 = some b') :
    b'.role = b.role ∧ b'.condition = b.condition := by
  unfold keepBinding at h
  cases hc : b.condition with
  | none => simp [hc] at h; subst h; exact ⟨rfl, hc⟩
  | some c =>
    simp only [hc] at h
    split at h
    · simp at h; subst h; exact ⟨rfl, hc⟩
    · split at h
      · simp at h
      · split at h
        · simp at h; subst h; exact ⟨rfl, hc⟩
        · split at h
          · simp at h
          · simp at h; subst h; exact ⟨rfl, rfl⟩

/-- A non-managed (foreign) binding passes through `keepBinding` untouched,
with no error. -/
theorem keepBinding_foreign (tag : String) (now : Int)
    (m : List (String × List String)) (b : Binding)
    (h : isManaged tag b = false) :
    keepBinding tag now m b = (some b, none) := by
  unfold keepBinding
  cases hc : b.condition with
  | none => rfl
  | some c =>
    unfold isManaged at h
    rw [hc] at h
    simp only [beq_eq_false_iff_ne] at h
    simp [h]

/-- A binding kept by `keepBinding` is managed iff the original is. -/
theorem keepBinding_managed_eq (tag : String) (now : Int)
    (m : List (String × List String)) (b b' : Binding)
    (h : (keepBinding tag now m b).1 = some b') :
    isManaged tag b' = isManaged tag b := by
  unfold isManaged
  rw [(keepBinding_fst_role_cond tag now m b b' h).2]

/-- Per-list form of the cleanup loop: kept bindings. -/
theorem cleanupBindings_bindings (tag : String) (now : Int) (p : Policy)
    (bs : List BindingReq) :
    (cleanupBindings tag now p bs).1.bindings
      = p.bindings.filterMap
          (fun b => (keepBinding tag now (toBindingsMap bs) b).1) := by
  simp only [cleanupBindings]
  rw [List.filterMap_map]
  rfl

/-- Per-list form of the cleanup loop: collected errors. -/
theorem cleanupBindings_errs (tag : String) (now : Int) (p : Policy)
    (bs : List BindingReq) :
    (cleanupBindings tag now p bs).2
      = p.bindings.filterMap
          (fun b => (keepBinding tag now (toBindingsMap bs) b).2) := by
  simp only [cleanupBindings]
  rw [List.filterMap_map]
  rfl

/-- A Boolean predicate that `keepBinding` cannot change (it depends only on
role and condition) filters to `[]` after cleanup if it did before. -/
theorem filter_keep_nil (tag : String) (now : Int)
    (m : List (String × List String)) (P : Binding → Bool)
    (hP : ∀ b b', (keepBinding tag now m b).1 = some b' → P b' = P b)
    (l : List Binding) (h : l.filter P = []) :
    (l.filterMap (fun b => (keepBinding tag now m b).1)).filter P = [] := by
  induction l with
  | nil => rfl
  | cons b t ih =>
    rw [List.filter_cons] at h
    split at h
    · exact absurd h (List.cons_ne_nil _ _)
    · rw [List.filterMap_cons]
      cases hk : (keepBinding tag now m b).1 with
      | none => exact ih h
      | some b' =>
        rw [List.filter_cons]
        have hpb : P b' = false := by
          rw [hP b b' hk]; simpa using ‹¬ P b = true›
        simp only [hpb]
        exact ih h

/-- Foreign bindings survive the cleanup loop verbatim. -/
theorem filter_foreign_filterMap_keep (tag : String) (now : Int)
    (m : List (String × List String)) (l : List Binding) :
    (l.filterMap (fun b => (keepBinding tag now m b).1)).filter
        (fun b => ! isManaged tag b)
      = l.filter (fun b => ! isManaged tag b) := by
  induction l with
  | nil => rfl
  | cons b t ih =>
    rw [List.filterMap_cons, List.filter_cons]
    cases hm : isManaged tag b with
    | false =>
      rw [keepBinding_foreign tag now m b hm]
      simp only [hm, Bool.not_false, if_true]
      rw [List.filter_cons]
      simp only [hm, Bool.not_false, if_true, ih]
    | true =>
      simp only [hm, Bool.not_true, if_false]
      cases hk : (keepBinding tag now m b).1 with
      | none => exact ih
      | some b' =>
        rw [List.filter_cons]
        have : isManaged tag b' = true := by
          rw [keepBinding_managed_eq tag now m b b' hk]; exact hm
        simp only [this, Bool.not_true, if_false]
        exact ih

/-- Every binding `addBindings` appends is managed. -/
theorem newBindingFor_managed (tag : String) (expiry : Int) (r : String)
    (ms : List String) : isManaged tag (newBindingFor tag expiry r ms) = true := by
  simp [isManaged, newBindingFor]

/-- C3: For every binding whose condition is absent or whose condition title
differs from the configured tag (a foreign binding), no reconciliation pass
(Add/Do or Remove/Cleanup, for any request) ever changes its members, role,
or condition, and no pass ever creates or deletes a foreign binding: the
sublist of foreign bindings of the resulting policy is exactly that of the
input policy. -/
theorem foreign_bindings_never_touched (tag : String) (now expiry : Int)
    (p : Policy) (bs : List BindingReq) :
    ((cleanupBindings tag now p bs).1.bindings.filter (fun b => ! isManaged tag b)
        = p.bindings.filter (fun b => ! isManaged tag b)) ∧
    ((addBindings tag now expiry p bs).1.bindings.filter (fun b => ! isManaged tag b)
        = p.bindings.filter (fun b => ! isManaged tag b)) := by
  constructor
  · rw [cleanupBindings_bindings]
    exact filter_foreign_filterMap_keep tag now (toBindingsMap bs) p.bindings
  · show ((cleanupBindings tag now p bs).1.bindings
        ++ (toBindingsMap bs).map (fun rm => newBindingFor tag expiry rm.1 rm.2)).filter
          (fun b => ! isManaged tag b) = _
    rw [List.filter_append, cleanupBindings_bindings]
    rw [filter_foreign_filterMap_keep tag now (toBindingsMap bs) p.bindings]
    have hnil : ((toBindingsMap bs).map
        (fun rm => newBindingFor tag expiry rm.1 rm.2)).filter
          (fun b => ! isManaged tag b) = [] := by
    -- every appended binding is managed, so the foreign filter drops them all
      rw [List.filter_eq_nil_iff]
      intro a ha
      rcases List.mem_map.mp ha with ⟨rm, _, hrm⟩
      rw [← hrm, newBindingFor_managed]
      simp
    rw [hnil, List.append_nil]

/-- C6: On an empty policy, `Add` for role `viewer`, members `u1`, `u2` and
expiry `now + 2h` produces exactly one binding, with the members in sorted
order, the default condition title, the expiration expression instantiated
(bit-for-bit) with the RFC 3339 rendering of the expiry, and policy
version 3. -/
theorem addBindings_fresh_grant (now : Int) (v : Int) :
    addBindings defaultConditionTitle now (now + 7200) ⟨[], v⟩
        [⟨["u1", "u2"], "viewer"⟩]
      = (⟨[⟨["u1", "u2"], "viewer",
            some ⟨defaultConditionTitle,
              expirationExpressionWith (formatRFC3339 (now + 7200))⟩⟩], 3⟩,
          []) := by
  rfl

/-- C7 (amended): `addBindings` always sets the policy version to 3;
`cleanupBindings` never touches the version, leaving the fetched policy's
version in place. -/
theorem version_add_sets_cleanup_preserves (tag : String) (now expiry : Int)
    (p : Policy) (bs : List BindingReq) :
    (addBindings tag now expiry p bs).1.version = 3 ∧
    (cleanupBindings tag now p bs).1.version = p.version :=
  ⟨rfl, rfl⟩

/-- A policy-fixture instant: 2024-01-01T00:00:00Z. -/
def nowJan2024 : Int := 1704067200

/-- A timestamp far in the future, decoding to 4102444800
(2100-01-01T00:00:00Z). -/
def farFuture : String := "2100-01-01T00:00:00Z"

/-- An unexpired AOD-managed binding for `roles/viewer`. -/
def bViewerManaged : Binding :=
  ⟨["user:u1", "user:u2"], "roles/viewer",
    some ⟨defaultConditionTitle, expirationExpressionWith farFuture⟩⟩

/-- C7 (counterexample): a Remove/Cleanup pass that keeps an unexpired
managed conditional binding writes back the fetched policy's version
unchanged — here 1, not 3 — even though a conditional binding is present. -/
theorem version_cleanup_counterexample :
    (cleanupBindings defaultConditionTitle nowJan2024
        ⟨[bViewerManaged], 1⟩ []).1
      = ⟨[bViewerManaged], 1⟩ ∧
    (cleanupBindings defaultConditionTitle nowJan2024
        ⟨[bViewerManaged], 1⟩ []).1.version ≠ 3 := by
  constructor
  · rfl
  · decide

/-- A managed-tagged binding whose condition expression does not match the
expiration template. -/
def bMalformed : Binding :=
  ⟨["user:u1"], "roles/viewer", some ⟨defaultConditionTitle, "garbage"⟩⟩

/-- C2 (counterexample): a Cleanup pass whose request names the malformed
binding's role and member does not leave the binding unchanged — it removes
the requested members and, all members being gone, drops the binding
entirely (while still reporting the decode error). -/
theorem malformed_binding_dropped_counterexample :
    cleanupBindings defaultConditionTitle nowJan2024 ⟨[bMalformed], 1⟩
        [⟨["user:u1"], "roles/viewer"⟩]
      = (⟨[], 1⟩, ["garbage"]) := by
  rfl

/-- C2 (amended): a managed-tagged binding whose condition expression does
not decode is never dropped as expired; if its role is not in the request it
is left completely unchanged by both passes and the decode error is
surfaced (returned by Cleanup, and only logged by Add, whose returned error
is always nil). -/
theorem malformed_binding_preserved (tag : String) (now expiry : Int)
    (p : Policy) (bs : List BindingReq) (b : Binding) (c : Condition)
    (hb : b ∈ p.bindings) (hc : b.condition = some c) (ht : c.title = tag)
    (hdec : decodeExpiry c.expression = none)
    (hrole : mapLookup (toBindingsMap bs) b.role = none) :
    b ∈ (cleanupBindings tag now p bs).1.bindings ∧
    c.expression ∈ (cleanupBindings tag now p bs).2 ∧
    b ∈ (addBindings tag now expiry p bs).1.bindings ∧
    c.expression ∈ (addBindings tag now expiry p bs).2 ∧
    (reconcile tag now (.add expiry) bs p).2 = [] := by
  have hkeep : keepBinding tag now (toBindingsMap bs) b
      = (some b, some c.expression) := by
    have hex : expired now c.expression = (false, some c.expression) := by
      unfold expired; rw [hdec]
    simp only [keepBinding, hc, hex, hrole, ht, ne_eq, not_true_eq_false,
      if_false, Bool.false_eq_true]
  have h1 : b ∈ (cleanupBindings tag now p bs).1.bindings := by
    rw [cleanupBindings_bindings]
    exact List.mem_filterMap.mpr ⟨b, hb, by rw [hkeep]⟩
  have h2 : c.expression ∈ (cleanupBindings tag now p bs).2 := by
    rw [cleanupBindings_errs]
    exact List.mem_filterMap.mpr ⟨b, hb, by rw [hkeep]⟩
  refine ⟨h1, h2, ?_, h2, rfl⟩
  show b ∈ (cleanupBindings tag now p bs).1.bindings ++ _
  exact List.mem_append_left _ h1

/-- C2 (amended) witness at a concrete malformed binding. -/
theorem malformed_binding_preserved_witness :
    bMalformed ∈ (cleanupBindings defaultConditionTitle nowJan2024
        ⟨[bMalformed], 1⟩ []).1.bindings ∧
    "garbage" ∈ (cleanupBindings defaultConditionTitle nowJan2024
        ⟨[bMalformed], 1⟩ []).2 ∧
    bMalformed ∈ (addBindings defaultConditionTitle nowJan2024 nowJan2024
        ⟨[bMalformed], 1⟩ []).1.bindings ∧
    "garbage" ∈ (addBindings defaultConditionTitle nowJan2024 nowJan2024
        ⟨[bMalformed], 1⟩ []).2 ∧
    (reconcile defaultConditionTitle nowJan2024 (.add nowJan2024) []
        ⟨[bMalformed], 1⟩).2 = [] :=
  malformed_binding_preserved defaultConditionTitle nowJan2024 nowJan2024
    ⟨[bMalformed], 1⟩ [] bMalformed ⟨defaultConditionTitle, "garbage"⟩
    (List.mem_singleton.mpr rfl) rfl rfl (by decide) rfl

/-! ## The bindings map has one entry per role -/

/-- `mapLookup` misses exactly the roles absent from the key list. -/
theorem mapLookup_none_iff (m : List (String × List String)) (r : String) :
    mapLookup m r = none ↔ r ∉ m.map Prod.fst := by
  induction m with
  | nil => simp [mapLookup]
  | cons e es ih =>
    unfold mapLookup
    by_cases h : e.1 = r
    · simp [h]
    · simp only [if_neg h, List.map_cons, List.mem_cons, ih]
      constructor
      · intro hn hor
        rcases hor with hor | hor
        · exact h hor.symm
        · exact hn hor
      · intro hn
        intro hmem
        exact hn (Or.inr hmem)

/-- `mapInsert` adds key `r` to the key list only when it is new. -/
theorem mapInsert_keys (m : List (String × List String)) (r mem : String) :
    (mapInsert m r mem).map Prod.fst
      = if r ∈ m.map Prod.fst then m.map Prod.fst
        else m.map Prod.fst ++ [r] := by
  induction m with
  | nil => simp [mapInsert]
  | cons e es ih =>
    unfold mapInsert
    by_cases h : e.1 = r
    · simp [h]
    · simp only [if_neg h, List.map_cons, ih]
      by_cases hm : r ∈ es.map Prod.fst
      · simp [hm, Ne.symm h]
      · simp [hm, Ne.symm h]

/-- `ensureRole` adds key `r` only when it is new. -/
theorem ensureRole_keys (m : List (String × List String)) (r : String) :
    (ensureRole m r).map Prod.fst
      = if r ∈ m.map Prod.fst then m.map Prod.fst
        else m.map Prod.fst ++ [r] := by
  unfold ensureRole
  cases hl : mapLookup m r with
  | none =>
    rw [if_neg ((mapLookup_none_iff m r).mp hl)]
    simp
  | some v =>
    have : ¬ mapLookup m r = none := by rw [hl]; simp
    rw [if_pos (by by_contra hn; exact this ((mapLookup_none_iff m r).mpr hn))]

/-- Key-list `Nodup` is preserved when a key is added only if new. -/
theorem nodup_extend (ks : List String) (r : String) (h : ks.Nodup) :
    (if r ∈ ks then ks else ks ++ [r]).Nodup := by
  by_cases hm : r ∈ ks
  · rwa [if_pos hm]
  · rw [if_neg hm]
    simp [List.nodup_append, h, hm]

/-- Folding member inserts for one role keeps the key list duplicate-free. -/
theorem keys_nodup_foldl_insert (r : String) (ms : List String) :
    ∀ acc : List (String × List String), (acc.map Prod.fst).Nodup →
      ((ms.foldl (fun a mem => mapInsert a r mem) acc).map Prod.fst).Nodup := by
  induction ms with
  | nil => intro acc h; exact h
  | cons mem t ih =>
    intro acc h
    rw [List.foldl_cons]
    refine ih _ ?_
    rw [mapInsert_keys]
    exact nodup_extend _ r h

/-- `toBindingsMap` produces at most one entry per distinct role. -/
theorem toBindingsMap_keys_nodup (bs : List BindingReq) :
    ((toBindingsMap bs).map Prod.fst).Nodup := by
  suffices h : ∀ acc : List (String × List String), (acc.map Prod.fst).Nodup →
      ((bs.foldl (fun acc b => b.members.foldl
          (fun a m => mapInsert a b.role m) (ensureRole acc b.role)) acc).map
        Prod.fst).Nodup by
    exact h [] (by simp)
  induction bs with
  | nil => intro acc h; exact h
  | cons b t ih =>
    intro acc h
    rw [List.foldl_cons]
    refine ih _ ?_
    refine keys_nodup_foldl_insert b.role b.members _ ?_
    rw [ensureRole_keys]
    exact nodup_extend _ b.role h

/-- C1 (amended): one reconciliation pass appends at most one *new* managed
binding per distinct requested role — `toBindingsMap` unions members across
duplicate request entries and keys are duplicate-free, and the roles of the
appended bindings are exactly those keys — but the appended bindings follow
whatever (possibly managed, same-role) bindings cleanup kept, so the policy
as a whole may hold more than one managed binding per role. -/
theorem add_appends_one_binding_per_role (tag : String) (now expiry : Int)
    (p : Policy) (bs : List BindingReq) :
    (addBindings tag now expiry p bs).1.bindings
      = (cleanupBindings tag now p bs).1.bindings
        ++ (toBindingsMap bs).map (fun rm => newBindingFor tag expiry rm.1 rm.2) ∧
    ((toBindingsMap bs).map Prod.fst).Nodup ∧
    ((toBindingsMap bs).map
        (fun rm => newBindingFor tag expiry rm.1 rm.2)).map Binding.role
      = (toBindingsMap bs).map Prod.fst := by
  refine ⟨rfl, toBindingsMap_keys_nodup bs, ?_⟩
  rw [List.map_map]
  rfl

/-- C1 (counterexample): `Add` of role `roles/viewer` member `user:u1` onto a
policy holding an unexpired managed `roles/viewer` binding for members
`user:u1`, `user:u2` — a strict superset — yields two managed bindings for
that role, not one. -/
theorem managed_binding_per_role_counterexample :
    (((addBindings defaultConditionTitle nowJan2024 4133980800
          ⟨[bViewerManaged], 3⟩ [⟨["user:u1"], "roles/viewer"⟩]).1.bindings).filter
        (fun b => isManaged defaultConditionTitle b && b.role == "roles/viewer")).length
      = 2 := by
  decide

/-- What `keepBinding` can drop or shrink always has the condition title of
the pass; in particular every binding it keeps that is managed with a
decodable expression is unexpired. -/
theorem keepBinding_no_expired_kept (tag : String) (now : Int)
    (m : List (String × List String)) (b b' : Binding) (c : Condition)
    (hk : (keepBinding tag now m b).1 = some b')
    (hc : b'.condition = some c) (ht : c.title = tag) (t : Int)
    (hd : decodeExpiry c.expression = some t) : ¬ t < now := by
  have hcb : b.condition = some c := by
    rw [← (keepBinding_fst_role_cond tag now m b b' hk).2, hc]
  intro hlt
  have hex : expired now c.expression = (true, none) := by
    simp only [expired, hd]
    rw [decide_eq_true hlt]
  simp [keepBinding, hcb, hex, ht] at hk

/-- C4: after any reconciliation pass (cleanup or add), no binding of the
resulting policy is a managed binding whose condition expression decodes to
an instant before `now`: every such binding of the input policy has been
removed, whether or not its role is in the request (for the add pass this
assumes the freshly encoded expiry itself is not in the past). -/
theorem expired_managed_bindings_removed (tag : String) (now expiry : Int)
    (p : Policy) (bs : List BindingReq)
    (hd : decodeExpiry (encodeExpiry expiry) = some expiry)
    (hexp : ¬ expiry < now) :
    (∀ b ∈ (cleanupBindings tag now p bs).1.bindings, ∀ c,
      b.condition = some c → c.title = tag → ∀ t,
        decodeExpiry c.expression = some t → ¬ t < now) ∧
    (∀ b ∈ (addBindings tag now expiry p bs).1.bindings, ∀ c,
      b.condition = some c → c.title = tag → ∀ t,
        decodeExpiry c.expression = some t → ¬ t < now) := by
  have hclean : ∀ b ∈ (cleanupBindings tag now p bs).1.bindings, ∀ c,
      b.condition = some c → c.title = tag → ∀ t,
        decodeExpiry c.expression = some t → ¬ t < now := by
    intro b' hb' c hc ht t hdt
    rw [cleanupBindings_bindings] at hb'
    rcases List.mem_filterMap.mp hb' with ⟨b, _, hk⟩
    exact keepBinding_no_expired_kept tag now (toBindingsMap bs) b b' c hk hc ht t hdt
  refine ⟨hclean, ?_⟩
  intro b' hb' c hc ht t hdt
  rcases List.mem_append.mp hb' with hmem | hmem
  · exact hclean b' hmem c hc ht t hdt
  · rcases List.mem_map.mp hmem with ⟨rm, _, hrm⟩
    have hce : c.expression = encodeExpiry expiry := by
      have := congrArg Binding.condition hrm
      simp only [newBindingFor] at this
      rw [hc] at this
      exact congrArg Condition.expression (Option.some.inj this).symm
    rw [hce, hd] at hdt
    rw [← Option.some.inj hdt]
    exact hexp

/-- C4 witness: a concrete pass over a policy holding an expired managed
binding for a role absent from the request. -/
theorem expired_managed_bindings_removed_witness :
    (∀ b ∈ (cleanupBindings defaultConditionTitle nowJan2024
        ⟨[⟨["user:u1"], "roles/editor",
          some ⟨defaultConditionTitle,
            expirationExpressionWith "2020-01-01T00:00:00Z"⟩⟩], 3⟩
        [⟨["user:u2"], "roles/viewer"⟩]).1.bindings, ∀ c,
      b.condition = some c → c.title = defaultConditionTitle → ∀ t,
        decodeExpiry c.expression = some t → ¬ t < nowJan2024) ∧
    (∀ b ∈ (addBindings defaultConditionTitle nowJan2024 1704074400
        ⟨[⟨["user:u1"], "roles/editor",
          some ⟨defaultConditionTitle,
            expirationExpressionWith "2020-01-01T00:00:00Z"⟩⟩], 3⟩
        [⟨["user:u2"], "roles/viewer"⟩]).1.bindings, ∀ c,
      b.condition = some c → c.title = defaultConditionTitle → ∀ t,
        decodeExpiry c.expression = some t → ¬ t < nowJan2024) :=
  expired_managed_bindings_removed defaultConditionTitle nowJan2024 1704074400
    ⟨[⟨["user:u1"], "roles/editor",
      some ⟨defaultConditionTitle,
        expirationExpressionWith "2020-01-01T00:00:00Z"⟩⟩], 3⟩
    [⟨["user:u2"], "roles/viewer"⟩] (by decide) (by decide)

/-! ## Orchestrator: per-scope independence -/

/-- The orchestration loop is a per-element map: each scope contributes its
own response and errors, independently of every other scope's outcome. -/
theorem runRequests_eq (h : IAMHandler) (now : Int) (pass : Pass)
    (rps : List ResourcePolicy) :
    runRequests h now pass rps
      = (rps.filterMap (fun rp =>
            scopeResponse rp.resource (handlePolicy h now pass rp)),
          rps.flatMap (fun rp =>
            scopeErrors rp.resource (handlePolicy h now pass rp))) := by
  suffices haux : ∀ (l : List ResourcePolicy)
      (acc : List IAMResponse × List String),
      l.foldl (fun acc rp =>
        let o := handlePolicy h now pass rp
        (acc.1 ++ (scopeResponse rp.resource o).toList,
          acc.2 ++ scopeErrors rp.resource o)) acc
        = (acc.1 ++ l.filterMap (fun rp =>
              scopeResponse rp.resource (handlePolicy h now pass rp)),
            acc.2 ++ l.flatMap (fun rp =>
              scopeErrors rp.resource (handlePolicy h now pass rp))) by
    have := haux rps ([], [])
    simpa [runRequests] using this
  intro l
  induction l with
  | nil => intro acc; simp
  | cons rp t ih =>
    intro acc
    rw [List.foldl_cons, ih]
    simp only [List.filterMap_cons, List.flatMap_cons]
    cases ho : scopeResponse rp.resource (handlePolicy h now pass rp) with
    | none => simp [ho, List.append_assoc]
    | some resp => simp [ho, List.append_assoc]

/-- C9: for both passes, the orchestrator's output is the independent
per-scope composition — every scope that completed contributes its
`{scope, policy}` result, and every failing scope contributes its errors to
the joined error, with no scope's outcome affecting any other scope's. -/
theorem scope_failures_isolated (h : IAMHandler) (now expiry : Int)
    (rps : List ResourcePolicy) :
    IAMHandlerDo h now expiry rps
      = (rps.filterMap (fun rp =>
            scopeResponse rp.resource (handlePolicy h now (.add expiry) rp)),
          rps.flatMap (fun rp =>
            scopeErrors rp.resource (handlePolicy h now (.add expiry) rp))) ∧
    IAMHandlerCleanup h now rps
      = (rps.filterMap (fun rp =>
            scopeResponse rp.resource (handlePolicy h now .cleanup rp)),
          rps.flatMap (fun rp =>
            scopeErrors rp.resource (handlePolicy h now .cleanup rp))) :=
  ⟨runRequests_eq h now (.add expiry) rps, runRequests_eq h now .cleanup rps⟩

/-! ## Retry controller -/

/-- The retry loop makes at most `fuel` further attempts. -/
theorem attemptLoop_attempts_le (c : IAMClient) (resource : String)
    (rec : Policy → Policy × List String) :
    ∀ (fuel used : Nat) (uerrs : List String),
      attemptsUsed (attemptLoop c resource rec fuel used uerrs) ≤ used + fuel := by
  intro fuel
  induction fuel with
  | zero => intro used uerrs; simp [attemptLoop, attemptsUsed]
  | succ f ih =>
    intro used uerrs
    unfold attemptLoop
    split
    · split
      · simp only [attemptsUsed]
        omega
      · have := ih (used + 1) uerrs
        omega
    · split
      · split
        · simp only [attemptsUsed]
          omega
        · rename_i x1 cp hg x2 e hs hf
          have := ih (used + 1) (nextUerrs (rec cp).2 uerrs)
          omega
      · simp only [attemptsUsed]
        omega

/-- C8 (amended): the handler bounds each scope at `maxAttempts` attempts of
the whole fetch-reconcile-write unit (default 5, with Fibonacci backoff
starting at 500ms); every store error — the handler wraps get and set errors
as retryable indiscriminately — consumes an attempt, and only an invalid
scope prefix fails without any store call. -/
theorem store_errors_all_retried (h : IAMHandler) (now : Int) (pass : Pass)
    (rp : ResourcePolicy) :
    attemptsUsed (handlePolicy h now pass rp) ≤ h.maxAttempts ∧
    (clientFor h rp.resource = none → handlePolicy h now pass rp = .invalidScope) ∧
    defaultMaxAttempts = 5 ∧ fibBackoffMs 0 = 500 ∧
    (∀ n, fibBackoffMs (n + 2) = fibBackoffMs n + fibBackoffMs (n + 1)) := by
  refine ⟨?_, ?_, rfl, rfl, fun n => rfl⟩
  · unfold handlePolicy
    cases hcl : clientFor h rp.resource with
    | none => simp [attemptsUsed]
    | some c =>
      have := attemptLoop_attempts_le c rp.resource
        (reconcile h.conditionTitle now pass rp.bindings) h.maxAttempts 0 []
      simpa using this
  · intro hcl
    unfold handlePolicy
    rw [hcl]

/-- A store whose calls always fail like a permission denial. -/
def denyClient : IAMClient :=
  ⟨fun _ _ => .err "PermissionDenied", fun _ _ _ => .err "PermissionDenied"⟩

/-- A handler over `denyClient` stores with the default configuration. -/
def denyHandler : IAMHandler :=
  ⟨denyClient, denyClient, denyClient, defaultMaxAttempts, defaultConditionTitle⟩

/-- C8 (counterexample): a non-retryable store error (permission denied) does
not fail the scope immediately — the handler consumes the whole default
budget of 5 attempts, because it wraps every store error as retryable. -/
theorem nonretryable_error_retried_counterexample :
    handlePolicy denyHandler 0 .cleanup ⟨"projects/p1", []⟩
      = .storeFailure 5 [] "PermissionDenied" ∧
    attemptsUsed (handlePolicy denyHandler 0 .cleanup ⟨"projects/p1", []⟩) ≠ 1 := by
  constructor
  · rfl
  · decide

/-- C8 (amended) witness: the bound and the invalid-scope case at concrete
inputs. -/
theorem store_errors_all_retried_witness :
    attemptsUsed (handlePolicy denyHandler 0 .cleanup ⟨"badscope/x", []⟩)
      ≤ denyHandler.maxAttempts ∧
    handlePolicy denyHandler 0 .cleanup ⟨"badscope/x", []⟩ = .invalidScope ∧
    defaultMaxAttempts = 5 ∧ fibBackoffMs 0 = 500 ∧
    (∀ n, fibBackoffMs (n + 2) = fibBackoffMs n + fibBackoffMs (n + 1)) := by
  have t := store_errors_all_retried denyHandler 0 .cleanup ⟨"badscope/x", []⟩
  exact ⟨t.1, t.2.1 rfl, t.2.2.1, t.2.2.2.1, t.2.2.2.2⟩

/-! ## Add with an empty request is still a full pass -/

/-- A managed binding whose condition expression decodes to an instant
before `now` (per Go `expired`; a non-decoding expression counts as not
expired). -/
def isExpiredAOD (tag : String) (now : Int) (b : Binding) : Bool :=
  match b.condition with
  | none => false
  | some c => c.title == tag && (expired now c.expression).1

/-- One unfolding step of the retry loop. -/
theorem attemptLoop_succ (c : IAMClient) (resource : String)
    (rec : Policy → Policy × List String) (fuel used : Nat)
    (uerrs : List String) :
    attemptLoop c resource rec (fuel + 1) used uerrs
      = match c.getIamPolicy resource used with
        | .err e =>
          if fuel = 0 then .storeFailure (used + 1) uerrs e
          else attemptLoop c resource rec fuel (used + 1) uerrs
        | .ok cp =>
          match c.setIamPolicy resource used (rec cp).1 with
          | .err e =>
            if fuel = 0 then
              .storeFailure (used + 1) (nextUerrs (rec cp).2 uerrs) e
            else attemptLoop c resource rec fuel (used + 1)
              (nextUerrs (rec cp).2 uerrs)
          | .ok np => .success (used + 1) (rec cp).1 np
              (nextUerrs (rec cp).2 uerrs) := rfl

/-- C10: an `Add` pass whose request has an empty bindings list is not a
no-op: the pass still runs end to end — it fetches the policy, removes
exactly the expired managed bindings (keeping everything else untouched),
appends no new binding, unconditionally sets the version to 3, and writes
the result back on the first attempt when the store cooperates. -/
theorem add_empty_bindings_not_noop (h : IAMHandler) (now expiry : Int)
    (p q : Policy) (res : String)
    (hseg : firstSegment res = "projects")
    (hmax : h.maxAttempts = defaultMaxAttempts)
    (hget : h.projectsClient.getIamPolicy res 0 = .ok p)
    (hset : h.projectsClient.setIamPolicy res 0
      (reconcile h.conditionTitle now (.add expiry) [] p).1 = .ok q) :
    (addBindings h.conditionTitle now expiry p []).1.version = 3 ∧
    (addBindings h.conditionTitle now expiry p []).1.bindings
      = p.bindings.filterMap
          (fun b => (keepBinding h.conditionTitle now [] b).1) ∧
    (∀ b, (keepBinding h.conditionTitle now [] b).1
      = if isExpiredAOD h.conditionTitle now b then none else some b) ∧
    handlePolicy h now (.add expiry) ⟨res, []⟩
      = .success 1 (addBindings h.conditionTitle now expiry p []).1 q [] := by
  have h2 : (addBindings h.conditionTitle now expiry p []).1.bindings
      = p.bindings.filterMap
          (fun b => (keepBinding h.conditionTitle now [] b).1) := by
    show (cleanupBindings h.conditionTitle now p []).1.bindings ++ [] = _
    rw [List.append_nil, cleanupBindings_bindings]
    rfl
  have h3 : ∀ b, (keepBinding h.conditionTitle now [] b).1
      = if isExpiredAOD h.conditionTitle now b then none else some b := by
    intro b
    unfold keepBinding isExpiredAOD
    cases hc : b.condition with
    | none => rfl
    | some c =>
      by_cases ht : c.title = h.conditionTitle
      · cases hex : (expired now c.expression).1 with
        | true => simp [ht, hex, mapLookup]
        | false => simp [ht, hex, mapLookup]
      · simp [ht, mapLookup]
  refine ⟨rfl, h2, h3, ?_⟩
  have hcl : clientFor h res = some h.projectsClient := by
    unfold clientFor
    rw [hseg]
    rfl
  show (match clientFor h res with
    | none => HandleOutcome.invalidScope
    | some c => attemptLoop c res
        (reconcile h.conditionTitle now (.add expiry) []) h.maxAttempts 0 []) = _
  rw [hcl, hmax]
  show attemptLoop h.projectsClient res
      (reconcile h.conditionTitle now (.add expiry) []) (4 + 1) 0 [] = _
  rw [attemptLoop_succ, hget]
  show (match h.projectsClient.setIamPolicy res 0
      ((reconcile h.conditionTitle now (.add expiry) [] p).1) with
    | StoreResult.err e =>
      if 4 = 0 then
        HandleOutcome.storeFailure (0 + 1)
          (nextUerrs (reconcile h.conditionTitle now (.add expiry) [] p).2 []) e
      else attemptLoop h.projectsClient res
          (reconcile h.conditionTitle now (.add expiry) []) 4 (0 + 1)
          (nextUerrs (reconcile h.conditionTitle now (.add expiry) [] p).2 [])
    | StoreResult.ok np => HandleOutcome.success (0 + 1)
        (reconcile h.conditionTitle now (.add expiry) [] p).1 np
        (nextUerrs (reconcile h.conditionTitle now (.add expiry) [] p).2 []))
    = _
  rw [hset]
  rfl

/-- A policy fixture: one expired managed binding and one foreign binding. -/
def pExpiredMix : Policy :=
  ⟨[⟨["user:u1"], "roles/editor",
      some ⟨defaultConditionTitle,
        expirationExpressionWith "2020-01-01T00:00:00Z"⟩⟩,
    ⟨["user:u2"], "roles/owner", none⟩], 1⟩

/-- A store that returns `pExpiredMix` on fetch and echoes back whatever
policy is written. -/
def echoClient : IAMClient :=
  ⟨fun _ _ => .ok pExpiredMix, fun _ _ q => .ok q⟩

/-- A default-configured handler whose projects store is `echoClient`. -/
def echoHandler : IAMHandler :=
  ⟨denyClient, denyClient, echoClient, defaultMaxAttempts, defaultConditionTitle⟩

/-- C10 witness at a concrete store and policy. -/
theorem add_empty_bindings_not_noop_witness :
    (addBindings echoHandler.conditionTitle nowJan2024 1704074400
        pExpiredMix []).1.version = 3 ∧
    (addBindings echoHandler.conditionTitle nowJan2024 1704074400
        pExpiredMix []).1.bindings
      = pExpiredMix.bindings.filterMap
          (fun b => (keepBinding echoHandler.conditionTitle nowJan2024 [] b).1) ∧
    (∀ b, (keepBinding echoHandler.conditionTitle nowJan2024 [] b).1
      = if isExpiredAOD echoHandler.conditionTitle nowJan2024 b then none
        else some b) ∧
    handlePolicy echoHandler nowJan2024 (.add 1704074400) ⟨"projects/p1", []⟩
      = .success 1
          (addBindings echoHandler.conditionTitle nowJan2024 1704074400
            pExpiredMix []).1
          (reconcile echoHandler.conditionTitle nowJan2024 (.add 1704074400) []
            pExpiredMix).1 [] :=
  add_empty_bindings_not_noop echoHandler nowJan2024 1704074400 pExpiredMix
    (reconcile echoHandler.conditionTitle nowJan2024 (.add 1704074400) []
      pExpiredMix).1
    "projects/p1" rfl rfl rfl rfl

/-! ## Applying Add twice for the same role and members -/

/-- Membership is preserved by the insertion-sort step. -/
theorem mem_insertSorted (x m : String) (l : List String) :
    x ∈ insertSorted m l ↔ x = m ∨ x ∈ l := by
  induction l with
  | nil => simp [insertSorted]
  | cons a t ih =>
    unfold insertSorted
    by_cases hle : strLe m a
    · simp [hle, List.mem_cons]
    · simp only [hle, if_false, Bool.false_eq_true, List.mem_cons, ih]
      tauto

/-- Sorting does not change membership. -/
theorem mem_sortStrings (x : String) (l : List String) :
    x ∈ sortStrings l ↔ x ∈ l := by
  induction l with
  | nil => simp [sortStrings]
  | cons a t ih =>
    show x ∈ insertSorted a (sortStrings t) ↔ _
    rw [mem_insertSorted, ih, List.mem_cons]

/-- Member inserts for a single-entry map keep the single entry. -/
theorem foldl_mapInsert_single (r : String) (ms : List String) :
    ∀ s, ms.foldl (fun a m => mapInsert a r m) [(r, s)]
      = [(r, ms.foldl insertMember s)] := by
  induction ms with
  | nil => intro s; rfl
  | cons m t ih =>
    intro s
    rw [List.foldl_cons, List.foldl_cons]
    have hstep : mapInsert [(r, s)] r m = [(r, insertMember s m)] := by
      simp [mapInsert]
    rw [hstep, ih]

/-- The bindings map of a one-entry request. -/
theorem toBindingsMap_single (r : String) (ms : List String) :
    toBindingsMap [⟨ms, r⟩] = [(r, ms.foldl insertMember [])] := by
  show ms.foldl (fun a m => mapInsert a r m) (ensureRole [] r)
    = [(r, ms.foldl insertMember [])]
  have he : ensureRole [] r = [(r, [])] := rfl
  rw [he, foldl_mapInsert_single]

/-- A freshly added, unexpired binding is dropped entirely on the next
cleanup for the same role and member set: the expiry decodes and is not in
the past, the role is in the request, and every member is requested. -/
theorem keepBinding_new_self (tag : String) (now e1 : Int) (r : String)
    (S : List String)
    (hd1 : decodeExpiry (encodeExpiry e1) = some e1) (h1 : ¬ e1 < now) :
    keepBinding tag now [(r, S)] (newBindingFor tag e1 r S) = (none, none) := by
  have hex : expired now (encodeExpiry e1) = (false, none) := by
    simp only [expired, hd1]
    rw [decide_eq_false h1]
  simp [keepBinding, newBindingFor, hex, mapLookup]
  intro x hx
  exact (mem_sortStrings x S).mp hx

/-- C5: applying `Add` twice in succession for the same role and members
(the second time with a later expiry, the first grant still unexpired),
starting from a policy with no managed binding for that role, leaves exactly
one managed binding for that role — no duplicate — and it carries the later
expiry. -/
theorem add_twice_single_binding (tag : String) (now e1 e2 : Int) (p : Policy)
    (r : String) (ms : List String)
    (hp : p.bindings.filter (fun b => isManaged tag b && b.role == r) = [])
    (hd1 : decodeExpiry (encodeExpiry e1) = some e1)
    (h1 : ¬ e1 < now) (hle : e1 ≤ e2) :
    ∃ mem,
      ((addBindings tag now e2 (addBindings tag now e1 p [⟨ms, r⟩]).1
          [⟨ms, r⟩]).1.bindings).filter
        (fun b => isManaged tag b && b.role == r)
        = [newBindingFor tag e2 r mem] ∧
      (addBindings tag now e2 (addBindings tag now e1 p [⟨ms, r⟩]).1
          [⟨ms, r⟩]).1.version = 3 := by
  refine ⟨ms.foldl insertMember [], ?_, rfl⟩
  have hPinv : ∀ b b',
      (keepBinding tag now (toBindingsMap [⟨ms, r⟩]) b).1 = some b' →
      (fun b => isManaged tag b && b.role == r) b'
        = (fun b => isManaged tag b && b.role == r) b := by
    intro b b' hk
    simp only [keepBinding_managed_eq tag now _ b b' hk,
      (keepBinding_fst_role_cond tag now _ b b' hk).1]
  have happ : ∀ (q : Policy) (e : Int),
      (addBindings tag now e q [⟨ms, r⟩]).1.bindings
        = (cleanupBindings tag now q [⟨ms, r⟩]).1.bindings
          ++ [newBindingFor tag e r (ms.foldl insertMember [])] := by
    intro q e
    show (cleanupBindings tag now q [⟨ms, r⟩]).1.bindings
        ++ (toBindingsMap [⟨ms, r⟩]).map
            (fun rm => newBindingFor tag e rm.1 rm.2) = _
    rw [toBindingsMap_single]
    rfl
  have hA : ((cleanupBindings tag now p [⟨ms, r⟩]).1.bindings).filter
      (fun b => isManaged tag b && b.role == r) = [] := by
    rw [cleanupBindings_bindings]
    exact filter_keep_nil tag now _ _ hPinv p.bindings hp
  have h2 : ((((cleanupBindings tag now p [⟨ms, r⟩]).1.bindings).filterMap
      (fun b => (keepBinding tag now (toBindingsMap [⟨ms, r⟩]) b).1)).filter
        (fun b => isManaged tag b && b.role == r)) = [] :=
    filter_keep_nil tag now _ _ hPinv _ hA
  have hnb1 : (keepBinding tag now (toBindingsMap [⟨ms, r⟩])
      (newBindingFor tag e1 r (ms.foldl insertMember []))).1 = none := by
    rw [toBindingsMap_single, keepBinding_new_self tag now e1 r _ hd1 h1]
  have h3 : ([newBindingFor tag e1 r (ms.foldl insertMember [])].filterMap
      (fun b => (keepBinding tag now (toBindingsMap [⟨ms, r⟩]) b).1)) = [] := by
    rw [List.filterMap_cons, hnb1]
    rfl
  have hnb2 : (fun b => isManaged tag b && b.role == r)
      (newBindingFor tag e2 r (ms.foldl insertMember [])) = true := by
    simp [isManaged, newBindingFor]
  rw [happ, List.filter_append, cleanupBindings_bindings, happ,
    List.filterMap_append, List.filter_append, h2, h3]
  simp only [List.filter_nil, List.nil_append, List.append_nil,
    List.filter_cons, hnb2, if_true]

/-- C5 witness: two concrete Adds an hour apart. -/
theorem add_twice_single_binding_witness :
    ∃ mem,
      ((addBindings defaultConditionTitle nowJan2024 1704074400
          (addBindings defaultConditionTitle nowJan2024 1704070800 ⟨[], 0⟩
            [⟨["user:u1"], "roles/viewer"⟩]).1
          [⟨["user:u1"], "roles/viewer"⟩]).1.bindings).filter
        (fun b => isManaged defaultConditionTitle b && b.role == "roles/viewer")
        = [newBindingFor defaultConditionTitle 1704074400 "roles/viewer" mem] ∧
      (addBindings defaultConditionTitle nowJan2024 1704074400
          (addBindings defaultConditionTitle nowJan2024 1704070800 ⟨[], 0⟩
            [⟨["user:u1"], "roles/viewer"⟩]).1
          [⟨["user:u1"], "roles/viewer"⟩]).1.version = 3 :=
  add_twice_single_binding defaultConditionTitle nowJan2024 1704070800
    1704074400 ⟨[], 0⟩ "roles/viewer" ["user:u1"] rfl (by decide) (by decide)
    (by decide)

end AOD
